import Mathlib

/-!
Verification of the OPNsense HA failover controller
(`src/opensense_failover.py`) against its specification.

The script keeps a Fritzbox NAT table pointed at the current master of a
two-node OPNsense pair.  We embed, at the level of the NAT-table state:

* the configured data (`Rule`, `Node`, the live `Mapping` table),
* the TR-064 client operations `delete_mapping` / `add_mapping`
  (remote success/failure is an oracle, one boolean per (port, protocol) key),
* the reconciler `update_for_master` (delete phase over the listed
  mappings, then add phase over the master's assigned ports, returning
  success iff at least one add succeeded), together with the trace of
  remote operations it issues,
* the index-scan listing `get_port_mappings`,
* the master detector `check_opnsense_master` (per-node status signal,
  ping fallback only when the status query raises), and
* the main-loop body `tick` / `runTicks` (reconcile only when the
  detected master differs from the recorded one; record it only on
  success).
-/

/-- A configured forwarding rule (an entry of `FORWARDING_PORTS`). -/
structure Rule where
  external : Nat
  internal : Nat
  protocol : String
  description : String
deriving DecidableEq, Repr

/-- A configured OPNsense node (an entry of `OPNSENSE_NODES`). -/
structure Node where
  wan_ip : String
  hostname : String
  ports : List Nat
deriving DecidableEq, Repr

/-- One live NAT port mapping as read back from the Fritzbox
(`GetGenericPortMappingEntry` fields). -/
structure Mapping where
  ExternalPort : Nat
  Protocol : String
  InternalPort : Nat
  InternalClient : String
  Description : String
  Enabled : Nat
  LeaseDuration : Nat
deriving DecidableEq, Repr

/-- The remote device's disposition: whether a `DeletePortMapping` /
`AddPortMapping` call for a given (external port, protocol) key returns a
success response.  A failing call leaves the table unchanged and the
client function returns `false` (the script logs and carries on). -/
structure Oracles where
  removeOk : Nat → String → Bool
  addOk : Nat → String → Bool

/-- One remote NAT operation as issued by the reconciler, with its
outcome. -/
inductive Op where
  | remove (port : Nat) (proto : String) (success : Bool)
  | add (port : Nat) (proto : String) (success : Bool)
deriving DecidableEq, Repr

/-- Whether an operation is a remove. -/
def Op.isRemove : Op → Bool
  | .remove _ _ _ => true
  | .add _ _ _ => false

/-- Whether an operation is an add. -/
def Op.isAdd : Op → Bool
  | .remove _ _ _ => false
  | .add _ _ _ => true

/-- Whether an operation is an add that succeeded. -/
def Op.isOkAdd : Op → Bool
  | .remove _ _ _ => false
  | .add _ _ ok => ok

/-- The (external port, protocol) key comparison the script performs:
`str(cfg["external"]) == m.get("ExternalPort") and cfg["protocol"] == m.get("Protocol")`. -/
def keyMatch (port : Nat) (proto : String) (m : Mapping) : Bool :=
  m.ExternalPort == port && m.Protocol == proto

/-- A live mapping matches a configured rule's key. -/
def ruleMatch (cfg : Rule) (m : Mapping) : Bool :=
  keyMatch cfg.external cfg.protocol m

/-- Model of `FritzboxTR064.delete_mapping`: issue `DeletePortMapping` for the key;
on a success response the device drops every mapping with that key and the
client returns `true`, otherwise the table is unchanged and it returns
`false`. -/
def delete_mapping (o : Oracles) (t : List Mapping) (port : Nat) (proto : String) :
    List Mapping × Bool :=
  if o.removeOk port proto then
    (t.filter (fun m => !keyMatch port proto m), true)
  else
    (t, false)

/-- The mapping created by a successful `AddPortMapping` call
(`NewEnabled = 1`, `NewLeaseDuration = 0`). -/
def mkMapping (port : Nat) (wan_ip : String) (internal : Nat) (proto : String)
    (desc : String) : Mapping :=
  { ExternalPort := port, Protocol := proto, InternalPort := internal,
    InternalClient := wan_ip, Description := desc, Enabled := 1,
    LeaseDuration := 0 }

/-- Model of `FritzboxTR064.add_mapping`: issue `AddPortMapping`; on a success
response the device appends the mapping and the client returns `true`,
otherwise the table is unchanged and it returns `false`. -/
def add_mapping (o : Oracles) (t : List Mapping) (port : Nat) (wan_ip : String)
    (internal : Nat) (proto : String) (desc : String) : List Mapping × Bool :=
  if o.addOk port proto then
    (t ++ [mkMapping port wan_ip internal proto desc], true)
  else
    (t, false)

/-- Inner loop of the delete phase: for one configured rule, walk the
listed mappings and issue a delete for every listed mapping whose key
matches the rule. -/
def removeInner (o : Oracles) (cfg : Rule) (current : List Mapping)
    (t : List Mapping) : List Mapping × List Op :=
  match current with
  | [] => (t, [])
  | m :: rest =>
    if ruleMatch cfg m then
      let d := delete_mapping o t cfg.external cfg.protocol
      let r := removeInner o cfg rest d.1
      (r.1, Op.remove cfg.external cfg.protocol d.2 :: r.2)
    else
      removeInner o cfg rest t

/-- The delete phase of `update_for_master` (step "1. Löschen unserer
Ports"): iterate over `FORWARDING_PORTS`, deleting every listed mapping
that matches a configured key. -/
def removeLoop (o : Oracles) (rules : List Rule) (current : List Mapping)
    (t : List Mapping) : List Mapping × List Op :=
  match rules with
  | [] => (t, [])
  | cfg :: rest =>
    let ri := removeInner o cfg current t
    let rl := removeLoop o rest current ri.1
    (rl.1, ri.2 ++ rl.2)

/-- The add phase of `update_for_master` (step "2. Neu erstellen"): for
every configured rule whose external port belongs to the master, issue an
add targeting the master's WAN address; count the successes in `ok`.
Returns (table, ops, ok). -/
def addLoop (o : Oracles) (rules : List Rule) (master : Node)
    (t : List Mapping) : List Mapping × List Op × Nat :=
  match rules with
  | [] => (t, [], 0)
  | cfg :: rest =>
    if master.ports.contains cfg.external then
      let a := add_mapping o t cfg.external master.wan_ip cfg.internal
        cfg.protocol (cfg.description ++ " (" ++ master.hostname ++ ")")
      let r := addLoop o rest master a.1
      (r.1, Op.add cfg.external cfg.protocol a.2 :: r.2.1,
        (if a.2 then 1 else 0) + r.2.2)
    else
      addLoop o rest master t

/-- Model of `FritzboxTR064.update_for_master`: list the current mappings once,
run the delete phase against that listing, then the add phase for the
master's ports; return success iff at least one add succeeded
(`return ok > 0`).  Result: (new table, operation trace, success). -/
def update_for_master (o : Oracles) (rules : List Rule) (master : Node)
    (table : List Mapping) : List Mapping × List Op × Bool :=
  let current := table
  let r := removeLoop o rules current table
  let a := addLoop o rules master r.1
  (a.1, r.2 ++ a.2.1, decide (0 < a.2.2))

/-- One body of the `while True` loop in `main`: if a master was detected
and it differs from the recorded `current`, run `update_for_master`; on
success record the new master, on failure keep the old record.  Returns
(recorded master, table, NAT operations performed this tick). -/
def tick (o : Oracles) (rules : List Rule) (current : Option Node)
    (table : List Mapping) (detected : Option Node) :
    Option Node × List Mapping × List Op :=
  match detected with
  | none => (current, table, [])
  | some master =>
    if some master = current then (current, table, [])
    else
      let u := update_for_master o rules master table
      (if u.2.2 then some master else current, u.1, u.2.1)

/-- Iterated main-loop ticks over a list of detection results, collecting
all NAT operations performed. -/
def runTicks (o : Oracles) (rules : List Rule) :
    Option Node × List Mapping → List (Option Node) →
    (Option Node × List Mapping) × List Op
  | s, [] => (s, [])
  | (c, t), d :: ds =>
    let r := tick o rules c t d
    let r2 := runTicks o rules (r.1, r.2.1) ds
    (r2.1, r.2.2 ++ r2.2)

/-! ### Master detection (`check_opnsense_master`) -/

/-- What happened when the script queried a node's status endpoint:
either the request (or JSON decoding) raised, or it returned an HTTP
status code together with the serialized interface entries of the body. -/
inductive StatusResult where
  | raised
  | ok (code : Nat) (ifaces : List String)
deriving DecidableEq, Repr

/-- The observable remote behavior of one node on one detection pass:
the status-query outcome and whether a ping of the node succeeds. -/
structure Signal where
  status : StatusResult
  ping : Bool
deriving DecidableEq, Repr

/-- Character-list prefix test (helper for substring containment). -/
def hasPrefixChars : List Char → List Char → Bool
  | [], _ => true
  | _ :: _, [] => false
  | a :: as, b :: bs => a == b && hasPrefixChars as bs

/-- Character-list substring containment (helper). -/
def containsChars (pat : List Char) : List Char → Bool
  | [] => pat.isEmpty
  | b :: bs => hasPrefixChars pat (b :: bs) || containsChars pat bs

/-- The characters of a string lower-cased (Python's `.lower()` on the
ASCII range relevant to the markers). -/
def lowerChars (s : String) : List Char :=
  s.data.map Char.toLower

/-- The per-interface master check:
`"carp" in str(iface).lower() and "master" in str(iface).lower()`. -/
def ifaceIsMaster (iface : String) : Bool :=
  containsChars "carp".data (lowerChars iface) &&
    containsChars "master".data (lowerChars iface)

/-- Some interface entry of the decoded body carries both markers. -/
def bodyHasMaster (ifaces : List String) : Bool :=
  ifaces.any ifaceIsMaster

/-- Model of `check_opnsense_master`: walk the configured nodes in order.  If the
status query returns HTTP 200 and some interface shows "carp"+"master",
return that node.  If the query raises, fall back to one ping of the node:
a reply makes it the (degraded) master.  Any other outcome moves on to the
next node.  Returns the detected master and the list of nodes that were
ping-probed. -/
def check_opnsense_master : List (Node × Signal) → Option Node × List Node
  | [] => (none, [])
  | (n, sig) :: rest =>
    match sig.status with
    | .ok code ifaces =>
      if code == 200 && bodyHasMaster ifaces then (some n, [])
      else check_opnsense_master rest
    | .raised =>
      if sig.ping then (some n, [n])
      else
        let r := check_opnsense_master rest
        (r.1, n :: r.2)

/-! ### Mapping listing (`get_port_mappings`) -/

/-- The device's answer to `GetGenericPortMappingEntry` at each index:
`none` models a call that fails (non-200 SOAP response, so `_soap`
returns `None`) or whose body does not parse — either breaks the loop. -/
def deviceAnswers (device : Nat → Option Mapping) : Prop :=
  ∃ n, device n = none

/-- The index-scan loop of `get_port_mappings`, starting at `idx`: keep
querying successive indices, collecting the parsed mappings, and stop at
the first failed or unparseable response.  `gas` bounds the number of
queries (the safety cap); `get_port_mappings` supplies enough gas that the
device's first failure, not the cap, is what stops the loop. -/
def scanMappings (device : Nat → Option Mapping) (idx : Nat) : Nat → List Mapping
  | 0 => []
  | gas + 1 =>
    match device idx with
    | none => []
    | some m => m :: scanMappings device (idx + 1) gas

/-- Model of `FritzboxTR064.get_port_mappings`: scan from index 0.  The gas is one
more than the first failing index, so the scan always ends by hitting the
device's failure, never the cap. -/
def get_port_mappings (device : Nat → Option Mapping)
    (h : deviceAnswers device) : List Mapping :=
  scanMappings device 0 (Nat.find h + 1)

/-- Two rules have distinct (external port, protocol) identity keys
(the load-time uniqueness invariant on the configured rule set). -/
abbrev keyDistinct (a b : Rule) : Prop :=
  ¬(a.external = b.external ∧ a.protocol = b.protocol)

/-- The configured rules assigned to a master node. -/
def assignedRules (rules : List Rule) (master : Node) : List Rule :=
  rules.filter (fun cfg => master.ports.contains cfg.external)

example :
    update_for_master ⟨fun _ _ => true, fun _ _ => true⟩
      [⟨443, 443, "TCP", "HTTPS"⟩, ⟨8443, 8443, "TCP", "Alt"⟩]
      ⟨"192.168.178.3", "A", [443]⟩
      [mkMapping 443 "10.0.0.9" 443 "TCP" "old", mkMapping 22 "x" 22 "TCP" "ssh"] =
    ([mkMapping 22 "x" 22 "TCP" "ssh", mkMapping 443 "192.168.178.3" 443 "TCP" "HTTPS (A)"],
     [Op.remove 443 "TCP" true, Op.add 443 "TCP" true], true) := by
  decide

example :
    check_opnsense_master
      [(⟨"a", "A", []⟩, ⟨.raised, true⟩),
       (⟨"b", "B", []⟩, ⟨.ok 200 ["carp ... master"], false⟩)] =
    (some ⟨"a", "A", []⟩, [⟨"a", "A", []⟩]) := by
  decide

/-! ### Helper lemmas: the delete phase -/

theorem removeInner_fst_allOk (o : Oracles) (cfg : Rule)
    (hall : ∀ p pr, o.removeOk p pr = true) (current t : List Mapping) :
    (removeInner o cfg current t).1 =
      if current.any (ruleMatch cfg) then t.filter (fun m => !ruleMatch cfg m)
      else t := by
  induction current generalizing t with
  | nil => simp [removeInner]
  | cons m rest ih =>
    by_cases hm : ruleMatch cfg m = true
    · have hd : delete_mapping o t cfg.external cfg.protocol =
          (t.filter (fun x => !ruleMatch cfg x), true) := by
        simp [delete_mapping, hall, ruleMatch]
      simp only [removeInner, hm, if_true, hd, ih, List.any_cons, Bool.true_or]
      by_cases hr : rest.any (ruleMatch cfg) = true
      · simp [hr, List.filter_filter]
      · simp [hr]
    · rw [Bool.not_eq_true] at hm
      have hany : (m :: rest).any (ruleMatch cfg) = rest.any (ruleMatch cfg) := by
        simp [List.any_cons, hm]
      rw [hany, ← ih t]
      simp only [removeInner, hm, Bool.false_eq_true, if_false]

theorem removeInner_ops_isRemove (o : Oracles) (cfg : Rule)
    (current t : List Mapping) :
    ∀ op ∈ (removeInner o cfg current t).2, op.isRemove = true := by
  induction current generalizing t with
  | nil => simp [removeInner]
  | cons m rest ih =>
    by_cases hm : ruleMatch cfg m = true
    · simp only [removeInner, hm, if_true]
      intro op hop
      rcases List.mem_cons.mp hop with h | h
      · subst h; rfl
      · exact ih _ op h
    · simp only [removeInner, hm, if_false]
      exact ih t

theorem removeInner_ops_emits (o : Oracles) (cfg : Rule)
    (current t : List Mapping) (hc : current.any (ruleMatch cfg) = true) :
    ∃ b, Op.remove cfg.external cfg.protocol b ∈ (removeInner o cfg current t).2 := by
  induction current generalizing t with
  | nil => simp at hc
  | cons m rest ih =>
    by_cases hm : ruleMatch cfg m = true
    · simp only [removeInner, hm, if_true]
      exact ⟨(delete_mapping o t cfg.external cfg.protocol).2, List.mem_cons_self _ _⟩
    · simp only [removeInner, hm, if_false]
      simp only [List.any_cons, hm, Bool.false_or] at hc
      exact ih t hc

theorem removeLoop_fst_allOk (o : Oracles)
    (hall : ∀ p pr, o.removeOk p pr = true)
    (rules : List Rule) (current : List Mapping) :
    ∀ t : List Mapping, (∀ m ∈ t, m ∈ current) →
      (removeLoop o rules current t).1 =
        t.filter (fun m => !rules.any (fun cfg => ruleMatch cfg m)) := by
  induction rules with
  | nil => intro t _; simp [removeLoop]
  | cons cfg rest ih =>
    intro t hsub
    simp only [removeLoop]
    rw [removeInner_fst_allOk o cfg hall current t]
    by_cases hc : current.any (ruleMatch cfg) = true
    · rw [if_pos hc]
      rw [ih _ (fun m hm => hsub m (List.mem_of_mem_filter hm))]
      rw [List.filter_filter]
      apply List.filter_congr
      intro m _
      simp only [List.any_cons, Bool.not_or]
      rw [Bool.and_comm]
    · rw [if_neg hc]
      rw [ih t hsub]
      apply List.filter_congr
      intro m hm
      have hmf : ruleMatch cfg m = false := by
        rcases Bool.eq_false_or_eq_true (ruleMatch cfg m) with h | h
        · exact absurd (List.any_eq_true.mpr ⟨m, hsub m hm, h⟩) hc
        · exact h
      simp [List.any_cons, hmf]

theorem removeLoop_ops_isRemove (o : Oracles) (rules : List Rule)
    (current : List Mapping) :
    ∀ t : List Mapping, ∀ op ∈ (removeLoop o rules current t).2,
      op.isRemove = true := by
  induction rules with
  | nil => intro t op hop; simp [removeLoop] at hop
  | cons cfg rest ih =>
    intro t op hop
    simp only [removeLoop, List.mem_append] at hop
    rcases hop with h | h
    · exact removeInner_ops_isRemove o cfg current t op h
    · exact ih _ op h

theorem removeLoop_ops_emits (o : Oracles) (rules : List Rule)
    (current : List Mapping) (cfg : Rule) (hcfg : cfg ∈ rules)
    (hc : current.any (ruleMatch cfg) = true) :
    ∀ t : List Mapping,
      ∃ b, Op.remove cfg.external cfg.protocol b ∈ (removeLoop o rules current t).2 := by
  induction rules with
  | nil => exact absurd hcfg (List.not_mem_nil cfg)
  | cons c rest ih =>
    intro t
    rcases List.mem_cons.mp hcfg with h | h
    · subst h
      obtain ⟨b, hb⟩ := removeInner_ops_emits o cfg current t hc
      exact ⟨b, by simp only [removeLoop, List.mem_append]; exact Or.inl hb⟩
    · obtain ⟨b, hb⟩ := ih h (removeInner o c current t).1
      exact ⟨b, by simp only [removeLoop, List.mem_append]; exact Or.inr hb⟩

/-! ### Helper lemmas: the add phase -/

/-- The mapping a successful add creates for rule `cfg` and master
`master`. -/
def addedMapping (master : Node) (cfg : Rule) : Mapping :=
  mkMapping cfg.external master.wan_ip cfg.internal cfg.protocol
    (cfg.description ++ " (" ++ master.hostname ++ ")")

theorem addLoop_fst (o : Oracles) (master : Node) (rules : List Rule) :
    ∀ t : List Mapping,
      (addLoop o rules master t).1 =
        t ++ ((assignedRules rules master).filter
          (fun cfg => o.addOk cfg.external cfg.protocol)).map (addedMapping master) := by
  induction rules with
  | nil => intro t; simp [addLoop, assignedRules]
  | cons cfg rest ih =>
    intro t
    by_cases hin : master.ports.contains cfg.external = true
    · by_cases hok : o.addOk cfg.external cfg.protocol = true
      · have ha : add_mapping o t cfg.external master.wan_ip cfg.internal
            cfg.protocol (cfg.description ++ " (" ++ master.hostname ++ ")") =
            (t ++ [addedMapping master cfg], true) := by
          simp [add_mapping, hok, addedMapping]
        have hmem : cfg.external ∈ master.ports := by simpa using hin
        simp only [addLoop, hin, if_true, ha, ih]
        simp [assignedRules, List.filter_cons, List.filter_filter, hmem, hok]
      · have ha : add_mapping o t cfg.external master.wan_ip cfg.internal
            cfg.protocol (cfg.description ++ " (" ++ master.hostname ++ ")") =
            (t, false) := by
          simp [add_mapping, hok]
        have hmem : cfg.external ∈ master.ports := by simpa using hin
        rw [Bool.not_eq_true] at hok
        simp only [addLoop, hin, if_true, ha, ih]
        simp [assignedRules, List.filter_cons, List.filter_filter, hmem, hok]
    · rw [Bool.not_eq_true] at hin
      have hmem : cfg.external ∉ master.ports := by simpa using hin
      simp only [addLoop, hin, Bool.false_eq_true, if_false, ih]
      simp [assignedRules, List.filter_cons, List.filter_filter, hmem]

theorem addLoop_ops_isAdd (o : Oracles) (master : Node) (rules : List Rule) :
    ∀ t : List Mapping, ∀ op ∈ (addLoop o rules master t).2.1, op.isAdd = true := by
  induction rules with
  | nil => intro t op hop; simp [addLoop] at hop
  | cons cfg rest ih =>
    intro t op hop
    by_cases hin : master.ports.contains cfg.external = true
    · simp only [addLoop, hin, if_true] at hop
      rcases List.mem_cons.mp hop with h | h
      · subst h; rfl
      · exact ih _ op h
    · rw [Bool.not_eq_true] at hin
      simp only [addLoop, hin, Bool.false_eq_true, if_false] at hop
      exact ih t op hop

theorem addLoop_ops_emits (o : Oracles) (master : Node) (rules : List Rule)
    (cfg : Rule) (hcfg : cfg ∈ rules)
    (hin : master.ports.contains cfg.external = true) :
    ∀ t : List Mapping,
      ∃ b, Op.add cfg.external cfg.protocol b ∈ (addLoop o rules master t).2.1 := by
  induction rules with
  | nil => exact absurd hcfg (List.not_mem_nil cfg)
  | cons c rest ih =>
    intro t
    rcases List.mem_cons.mp hcfg with h | h
    · subst h
      simp only [addLoop, hin, if_true]
      exact ⟨_, List.mem_cons_self _ _⟩
    · by_cases hc : master.ports.contains c.external = true
      · obtain ⟨b, hb⟩ := ih h (add_mapping o t c.external master.wan_ip c.internal
          c.protocol (c.description ++ " (" ++ master.hostname ++ ")")).1
        exact ⟨b, by simp only [addLoop, hc, if_true]; exact List.mem_cons_of_mem _ hb⟩
      · rw [Bool.not_eq_true] at hc
        obtain ⟨b, hb⟩ := ih h t
        exact ⟨b, by simp only [addLoop, hc, Bool.false_eq_true, if_false]; exact hb⟩

theorem addLoop_count_pos (o : Oracles) (master : Node) (rules : List Rule) :
    ∀ t : List Mapping,
      (0 < (addLoop o rules master t).2.2 ↔
        ∃ op ∈ (addLoop o rules master t).2.1, op.isOkAdd = true) := by
  induction rules with
  | nil => intro t; simp [addLoop]
  | cons cfg rest ih =>
    intro t
    by_cases hin : master.ports.contains cfg.external = true
    · simp only [addLoop, hin, if_true]
      constructor
      · intro hpos
        by_cases hok : (add_mapping o t cfg.external master.wan_ip cfg.internal
            cfg.protocol (cfg.description ++ " (" ++ master.hostname ++ ")")).2 = true
        · exact ⟨Op.add cfg.external cfg.protocol _, List.mem_cons_self _ _, by
            simp [Op.isOkAdd, hok]⟩
        · rw [Bool.not_eq_true] at hok
          simp only [hok, Bool.false_eq_true, if_false, Nat.zero_add] at hpos
          obtain ⟨op, hmem, hop⟩ := (ih _).mp hpos
          exact ⟨op, List.mem_cons_of_mem _ hmem, hop⟩
      · rintro ⟨op, hmem, hop⟩
        rcases List.mem_cons.mp hmem with h | h
        · subst h
          simp only [Op.isOkAdd] at hop
          simp [hop]
        · have := (ih _).mpr ⟨op, h, hop⟩
          omega
    · rw [Bool.not_eq_true] at hin
      simp only [addLoop, hin, Bool.false_eq_true, if_false]
      exact ih t

theorem addLoop_no_ports (o : Oracles) (master : Node) (hp : master.ports = [])
    (rules : List Rule) : ∀ t : List Mapping, addLoop o rules master t = (t, [], 0) := by
  induction rules with
  | nil => intro t; simp [addLoop]
  | cons cfg rest ih =>
    intro t
    have hin : master.ports.contains cfg.external = false := by simp [hp]
    simp only [addLoop, hin, Bool.false_eq_true, if_false]
    exact ih t

/-! ### Helper lemmas: `update_for_master` and the controller -/

theorem update_fst (o : Oracles) (rules : List Rule) (master : Node)
    (table : List Mapping) :
    (update_for_master o rules master table).1 =
      (addLoop o rules master (removeLoop o rules table table).1).1 := rfl

theorem update_ops (o : Oracles) (rules : List Rule) (master : Node)
    (table : List Mapping) :
    (update_for_master o rules master table).2.1 =
      (removeLoop o rules table table).2 ++
        (addLoop o rules master (removeLoop o rules table table).1).2.1 := rfl

theorem update_success (o : Oracles) (rules : List Rule) (master : Node)
    (table : List Mapping) :
    (update_for_master o rules master table).2.2 =
      decide (0 < (addLoop o rules master (removeLoop o rules table table).1).2.2) := rfl

/-- With the device accepting every call, a reconciliation ends with the
old table stripped of every configured key, followed by one fresh mapping
per configured rule assigned to the master. -/
theorem update_fst_allOk (o : Oracles) (rules : List Rule) (master : Node)
    (table : List Mapping)
    (hrem : ∀ p pr, o.removeOk p pr = true)
    (hadd : ∀ p pr, o.addOk p pr = true) :
    (update_for_master o rules master table).1 =
      table.filter (fun m => !rules.any (fun cfg => ruleMatch cfg m)) ++
        (assignedRules rules master).map (addedMapping master) := by
  rw [update_fst, addLoop_fst,
    removeLoop_fst_allOk o hrem rules table table (fun m hm => hm)]
  congr 1
  rw [List.filter_congr (fun a _ => hadd a.external a.protocol)]
  simp

/-- The same-identity-key test between two configured rules, as a
boolean. -/
def keySame (a b : Rule) : Bool :=
  a.external == b.external && a.protocol == b.protocol

theorem keySame_of_keyDistinct {a b : Rule} (h : keyDistinct a b) :
    keySame a b = false := by
  rcases Bool.eq_false_or_eq_true (keySame a b) with ht | hf
  · exact absurd (by simpa [keySame] using ht : a.external = b.external ∧ a.protocol = b.protocol) h
  · exact hf

theorem keySame_swap {a b : Rule} (h : keySame a b = false) :
    keySame b a = false := by
  rcases Bool.eq_false_or_eq_true (keySame b a) with ht | hf
  · obtain ⟨h1, h2⟩ : b.external = a.external ∧ b.protocol = a.protocol := by
      simpa [keySame] using ht
    rw [keySame, h1, h2] at h
    simp at h
  · exact hf

theorem ruleMatch_addedMapping (master : Node) (c cfg : Rule) :
    ruleMatch cfg (addedMapping master c) = keySame c cfg := by
  simp [ruleMatch, keyMatch, addedMapping, mkMapping, keySame]

/-- Under the load-time key-uniqueness invariant, the add phase creates
exactly one mapping with the key of each rule assigned to the master. -/
theorem countP_assigned_one (master : Node) (rules : List Rule)
    (hkeys : rules.Pairwise keyDistinct) (cfg : Rule) (hcfg : cfg ∈ rules)
    (hin : master.ports.contains cfg.external = true) :
    ((assignedRules rules master).map (addedMapping master)).countP
      (ruleMatch cfg) = 1 := by
  rw [List.countP_map, assignedRules, List.countP_filter]
  simp only [Function.comp_apply]
  induction rules with
  | nil => exact absurd hcfg (List.not_mem_nil cfg)
  | cons c rest ih =>
    rw [List.pairwise_cons] at hkeys
    rw [List.countP_cons]
    rcases List.mem_cons.mp hcfg with h | h
    · subst h
      have hpred : (ruleMatch cfg (addedMapping master cfg) &&
          master.ports.contains cfg.external) = true := by
        simp only [ruleMatch_addedMapping, hin, Bool.and_true]
        simp [keySame]
      have hzero : (rest.countP fun a => ruleMatch cfg (addedMapping master a) &&
          master.ports.contains a.external) = 0 := by
        rw [List.countP_eq_zero]
        intro a ha
        have hs := keySame_swap (keySame_of_keyDistinct (hkeys.1 a ha))
        simp [ruleMatch_addedMapping, hs]
      rw [hzero]
      simp only [hpred]
      simp
    · have hc0 : keySame c cfg = false := keySame_of_keyDistinct (hkeys.1 cfg h)
      have hfalse : (ruleMatch cfg (addedMapping master c) &&
          master.ports.contains c.external) = false := by
        simp only [ruleMatch_addedMapping, hc0, Bool.false_and]
      simp only [hfalse]
      simp only [Bool.false_eq_true, if_false, Nat.add_zero]
      exact ih hkeys.2 h

theorem tick_none (o : Oracles) (rules : List Rule) (c : Option Node)
    (t : List Mapping) : tick o rules c t none = (c, t, []) := rfl

theorem tick_same (o : Oracles) (rules : List Rule) (n : Node)
    (t : List Mapping) : tick o rules (some n) t (some n) = (some n, t, []) := by
  simp [tick]

theorem runTicks_const (o : Oracles) (rules : List Rule) (n : Node) :
    ∀ (ds : List (Option Node)) (t : List Mapping), (∀ d ∈ ds, d = some n) →
      runTicks o rules (some n, t) ds = ((some n, t), []) := by
  intro ds
  induction ds with
  | nil => intro t _; rfl
  | cons d rest ih =>
    intro t h
    have hd : d = some n := h d (List.mem_cons_self _ _)
    subst hd
    simp only [runTicks, tick_same]
    rw [ih t (fun x hx => h x (List.mem_cons_of_mem _ hx))]
    rfl

/-- A mapping surviving the delete phase (when every delete succeeds)
matches no configured rule's key. -/
theorem filter_noConfigured (rules : List Rule) (t : List Mapping) (cfg : Rule)
    (hcfg : cfg ∈ rules) :
    ∀ m ∈ t.filter (fun m => !rules.any (fun c => ruleMatch c m)),
      ruleMatch cfg m = false := by
  intro m hm
  have h2 := (List.mem_filter.mp hm).2
  rcases Bool.eq_false_or_eq_true (ruleMatch cfg m) with ht | hf
  · exfalso
    have hany : rules.any (fun c => ruleMatch c m) = true :=
      List.any_eq_true.mpr ⟨cfg, hcfg, ht⟩
    rw [hany] at h2
    simp at h2
  · exact hf

/-- Under key uniqueness, two configured rules with the same key are the
same rule. -/
theorem keySame_eq_of_pairwise {rules : List Rule}
    (hkeys : rules.Pairwise keyDistinct) {a b : Rule}
    (ha : a ∈ rules) (hb : b ∈ rules) (hs : keySame a b = true) : a = b := by
  induction rules with
  | nil => exact absurd ha (List.not_mem_nil a)
  | cons c rest ih =>
    rw [List.pairwise_cons] at hkeys
    rcases List.mem_cons.mp ha with h1 | h1 <;> rcases List.mem_cons.mp hb with h2 | h2
    · rw [h1, h2]
    · subst h1
      have := keySame_of_keyDistinct (hkeys.1 b h2)
      rw [this] at hs; simp at hs
    · subst h2
      have := keySame_swap (keySame_of_keyDistinct (hkeys.1 a h1))
      rw [this] at hs; simp at hs
    · exact ih hkeys.2 h1 h2

theorem Op.isOkAdd_false_of_isRemove {op : Op} (h : op.isRemove = true) :
    op.isOkAdd = false := by
  cases op with
  | remove p pr s => rfl
  | add p pr s => simp [Op.isRemove] at h

/-! ### The claims -/

/-- C1: for every configured rule set (satisfying the load-time key
uniqueness invariant), every master node and every initial remote mapping
list, if a reconciliation run completes with every remove and every add
succeeding, the live NAT table afterwards contains exactly one mapping for
the key of each configured rule assigned to the master, pointing at the
master's target address, and no mapping for any other configured rule's
key. -/
theorem C1_reconcile_exact (o : Oracles) (rules : List Rule) (master : Node)
    (table : List Mapping)
    (hkeys : rules.Pairwise keyDistinct)
    (hrem : ∀ p pr, o.removeOk p pr = true)
    (hadd : ∀ p pr, o.addOk p pr = true) :
    ∀ cfg ∈ rules,
      (master.ports.contains cfg.external = true →
        ((update_for_master o rules master table).1.countP (ruleMatch cfg) = 1 ∧
          ∀ m ∈ (update_for_master o rules master table).1,
            ruleMatch cfg m = true → m.InternalClient = master.wan_ip)) ∧
      (master.ports.contains cfg.external = false →
        ∀ m ∈ (update_for_master o rules master table).1,
          ruleMatch cfg m = false) := by
  intro cfg hcfg
  rw [update_fst_allOk o rules master table hrem hadd]
  constructor
  · intro hin
    constructor
    · rw [List.countP_append]
      have h1 : (table.filter (fun m => !rules.any (fun c => ruleMatch c m))).countP
          (ruleMatch cfg) = 0 := by
        rw [List.countP_eq_zero]
        intro m hm
        simp [filter_noConfigured rules table cfg hcfg m hm]
      rw [h1, countP_assigned_one master rules hkeys cfg hcfg hin]
    · intro m hm hrm
      rcases List.mem_append.mp hm with h | h
      · rw [filter_noConfigured rules table cfg hcfg m h] at hrm
        simp at hrm
      · obtain ⟨c, hc, rfl⟩ := List.mem_map.mp h
        rfl
  · intro hnin m hm
    rcases List.mem_append.mp hm with h | h
    · exact filter_noConfigured rules table cfg hcfg m h
    · obtain ⟨c, hcmem, rfl⟩ := List.mem_map.mp h
      have hcr := List.mem_filter.mp hcmem
      rw [ruleMatch_addedMapping]
      rcases Bool.eq_false_or_eq_true (keySame c cfg) with ht | hf
      · obtain ⟨he, _⟩ : c.external = cfg.external ∧ c.protocol = cfg.protocol := by
          simpa [keySame] using ht
        exfalso
        rw [← he, hcr.2] at hnin
        simp at hnin
      · exact hf

theorem C1_reconcile_exact_witness :
    ([⟨443, 443, "TCP", "web"⟩, ⟨51820, 51820, "UDP", "vpn"⟩] :
        List Rule).Pairwise keyDistinct ∧
    ((⟨"192.168.178.3", "A", [443]⟩ : Node).ports.contains 443 = true) ∧
    ((update_for_master ⟨fun _ _ => true, fun _ _ => true⟩
        [⟨443, 443, "TCP", "web"⟩, ⟨51820, 51820, "UDP", "vpn"⟩]
        ⟨"192.168.178.3", "A", [443]⟩
        [mkMapping 443 "10.0.0.9" 443 "TCP" "old"]).1.countP
          (ruleMatch ⟨443, 443, "TCP", "web"⟩) = 1 ∧
      ∀ m ∈ (update_for_master ⟨fun _ _ => true, fun _ _ => true⟩
        [⟨443, 443, "TCP", "web"⟩, ⟨51820, 51820, "UDP", "vpn"⟩]
        ⟨"192.168.178.3", "A", [443]⟩
        [mkMapping 443 "10.0.0.9" 443 "TCP" "old"]).1,
          ruleMatch ⟨443, 443, "TCP", "web"⟩ m = true →
            m.InternalClient = (⟨"192.168.178.3", "A", [443]⟩ : Node).wan_ip) :=
  ⟨by decide, by decide,
    ((C1_reconcile_exact ⟨fun _ _ => true, fun _ _ => true⟩
      [⟨443, 443, "TCP", "web"⟩, ⟨51820, 51820, "UDP", "vpn"⟩]
      ⟨"192.168.178.3", "A", [443]⟩
      [mkMapping 443 "10.0.0.9" 443 "TCP" "old"]
      (by decide) (fun _ _ => rfl) (fun _ _ => rfl)
      ⟨443, 443, "TCP", "web"⟩ (by decide)).1 (by decide))⟩

/-- C2: running the reconciliation twice in sequence with the same target
node, with all remote operations succeeding, leaves the NAT table
identical to running it once (the run deletes-then-recreates even if
already correct). -/
theorem C2_idempotent (o : Oracles) (rules : List Rule) (master : Node)
    (table : List Mapping)
    (hrem : ∀ p pr, o.removeOk p pr = true)
    (hadd : ∀ p pr, o.addOk p pr = true) :
    (update_for_master o rules master
        (update_for_master o rules master table).1).1 =
      (update_for_master o rules master table).1 := by
  rw [update_fst_allOk o rules master table hrem hadd]
  rw [update_fst_allOk o rules master _ hrem hadd]
  rw [List.filter_append]
  have h1 : (table.filter (fun m => !rules.any (fun cfg => ruleMatch cfg m))).filter
      (fun m => !rules.any (fun cfg => ruleMatch cfg m)) =
      table.filter (fun m => !rules.any (fun cfg => ruleMatch cfg m)) := by
    rw [List.filter_filter]
    exact List.filter_congr (fun a _ => Bool.and_self _)
  have h2 : ((assignedRules rules master).map (addedMapping master)).filter
      (fun m => !rules.any (fun cfg => ruleMatch cfg m)) = [] := by
    rw [List.filter_eq_nil_iff]
    intro a ha
    obtain ⟨c, hc, rfl⟩ := List.mem_map.mp ha
    have hcr := List.mem_filter.mp hc
    have hself : ruleMatch c (addedMapping master c) = true := by
      rw [ruleMatch_addedMapping]
      simp [keySame]
    have hany : rules.any (fun cfg => ruleMatch cfg (addedMapping master c)) = true :=
      List.any_eq_true.mpr ⟨c, hcr.1, hself⟩
    simp [hany]
  rw [h1, h2, List.append_nil]

theorem C2_idempotent_witness :
    (update_for_master ⟨fun _ _ => true, fun _ _ => true⟩
        [⟨443, 443, "TCP", "web"⟩]
        ⟨"192.168.178.3", "A", [443]⟩
        (update_for_master ⟨fun _ _ => true, fun _ _ => true⟩
          [⟨443, 443, "TCP", "web"⟩]
          ⟨"192.168.178.3", "A", [443]⟩
          [mkMapping 443 "10.0.0.9" 443 "TCP" "old"]).1).1 =
      (update_for_master ⟨fun _ _ => true, fun _ _ => true⟩
        [⟨443, 443, "TCP", "web"⟩]
        ⟨"192.168.178.3", "A", [443]⟩
        [mkMapping 443 "10.0.0.9" 443 "TCP" "old"]).1 :=
  C2_idempotent ⟨fun _ _ => true, fun _ _ => true⟩
    [⟨443, 443, "TCP", "web"⟩] ⟨"192.168.178.3", "A", [443]⟩
    [mkMapping 443 "10.0.0.9" 443 "TCP" "old"]
    (fun _ _ => rfl) (fun _ _ => rfl)

/-- C3: with arbitrary per-operation failures, a reconciliation run still
attempts a remove for every configured rule present in the listed
mappings and an add for every configured rule assigned to the master (no
failing operation aborts the pass), and it returns success iff at least
one add succeeded. -/
theorem C3_no_abort (o : Oracles) (rules : List Rule) (master : Node)
    (table : List Mapping) :
    (∀ cfg ∈ rules, (∃ m ∈ table, ruleMatch cfg m = true) →
       ∃ b, Op.remove cfg.external cfg.protocol b ∈
         (update_for_master o rules master table).2.1) ∧
    (∀ cfg ∈ rules, master.ports.contains cfg.external = true →
       ∃ b, Op.add cfg.external cfg.protocol b ∈
         (update_for_master o rules master table).2.1) ∧
    ((update_for_master o rules master table).2.2 = true ↔
       ∃ op ∈ (update_for_master o rules master table).2.1,
         op.isOkAdd = true) := by
  rw [update_ops, update_success]
  refine ⟨?_, ?_, ?_⟩
  · intro cfg hcfg hex
    obtain ⟨m, hm, hrm⟩ := hex
    obtain ⟨b, hb⟩ := removeLoop_ops_emits o rules table cfg hcfg
      (List.any_eq_true.mpr ⟨m, hm, hrm⟩) table
    exact ⟨b, List.mem_append_left _ hb⟩
  · intro cfg hcfg hin
    obtain ⟨b, hb⟩ := addLoop_ops_emits o master rules cfg hcfg hin
      (removeLoop o rules table table).1
    exact ⟨b, List.mem_append_right _ hb⟩
  · constructor
    · intro hdec
      have hpos := of_decide_eq_true hdec
      obtain ⟨op, hop, hok⟩ := (addLoop_count_pos o master rules _).mp hpos
      exact ⟨op, List.mem_append_right _ hop, hok⟩
    · rintro ⟨op, hop, hok⟩
      rcases List.mem_append.mp hop with h | h
      · have := Op.isOkAdd_false_of_isRemove
          (removeLoop_ops_isRemove o rules table table op h)
        rw [this] at hok
        simp at hok
      · exact decide_eq_true ((addLoop_count_pos o master rules _).mpr ⟨op, h, hok⟩)

theorem C3_no_abort_witness :
    ∃ b, Op.remove 443 "TCP" b ∈
      (update_for_master ⟨fun _ _ => true, fun _ _ => false⟩
        [⟨443, 443, "TCP", "web"⟩] ⟨"192.168.178.3", "A", [443]⟩
        [mkMapping 443 "10.0.0.9" 443 "TCP" "old"]).2.1 :=
  (C3_no_abort ⟨fun _ _ => true, fun _ _ => false⟩
    [⟨443, 443, "TCP", "web"⟩] ⟨"192.168.178.3", "A", [443]⟩
    [mkMapping 443 "10.0.0.9" 443 "TCP" "old"]).1
    ⟨443, 443, "TCP", "web"⟩ (by decide)
    ⟨mkMapping 443 "10.0.0.9" 443 "TCP" "old", by decide, by decide⟩

/-- C4: in every reconciliation run the operation trace splits into a
remove phase followed by an add phase — every remove is issued before the
first add, with no interleaving. -/
theorem C4_removes_before_adds (o : Oracles) (rules : List Rule)
    (master : Node) (table : List Mapping) :
    ∃ rops aops, (update_for_master o rules master table).2.1 = rops ++ aops ∧
      (∀ op ∈ rops, op.isRemove = true) ∧ (∀ op ∈ aops, op.isAdd = true) :=
  ⟨(removeLoop o rules table table).2,
   (addLoop o rules master (removeLoop o rules table table).1).2.1,
   update_ops o rules master table,
   removeLoop_ops_isRemove o rules table table,
   addLoop_ops_isAdd o master rules (removeLoop o rules table table).1⟩

/-- C5 counterexample: a tick whose reconciliation returns failure (the
detected node has no assigned ports, so every add is skipped) leaves the
recorded master unchanged but does NOT leave the NAT table unchanged —
the delete phase already removed the configured rule's mapping. -/
theorem C5_counterexample :
    (update_for_master ⟨fun _ _ => true, fun _ _ => true⟩
        [⟨443, 443, "TCP", "web"⟩] ⟨"1.2.3.4", "B", []⟩
        [mkMapping 443 "9.9.9.9" 443 "TCP" "old"]).2.2 = false ∧
    (tick ⟨fun _ _ => true, fun _ _ => true⟩ [⟨443, 443, "TCP", "web"⟩]
        none [mkMapping 443 "9.9.9.9" 443 "TCP" "old"]
        (some ⟨"1.2.3.4", "B", []⟩)).1 = none ∧
    (tick ⟨fun _ _ => true, fun _ _ => true⟩ [⟨443, 443, "TCP", "web"⟩]
        none [mkMapping 443 "9.9.9.9" 443 "TCP" "old"]
        (some ⟨"1.2.3.4", "B", []⟩)).2.1 ≠
      [mkMapping 443 "9.9.9.9" 443 "TCP" "old"] := by
  refine ⟨by decide, by decide, ?_⟩
  decide

/-- C5 (amended): the recorded master changes only when a reconciliation
run returns success for the newly detected node; on a tick where detection
returns none or the detected node equals the recorded one, both the
recorded master and the NAT table are untouched and no NAT operation is
issued; on a tick where reconciliation returns failure the recorded
master is unchanged (the NAT table, however, may have been modified by the
delete phase). -/
theorem C5_state_transitions (o : Oracles) (rules : List Rule)
    (c : Option Node) (t : List Mapping) :
    (tick o rules c t none = (c, t, [])) ∧
    (∀ n, c = some n → tick o rules c t (some n) = (c, t, [])) ∧
    (∀ n, (update_for_master o rules n t).2.2 = false →
      (tick o rules c t (some n)).1 = c) ∧
    (∀ n, c ≠ some n → (update_for_master o rules n t).2.2 = true →
      (tick o rules c t (some n)).1 = some n) := by
  refine ⟨rfl, ?_, ?_, ?_⟩
  · intro n hc
    subst hc
    exact tick_same o rules n t
  · intro n hfail
    by_cases hc : some n = c
    · simp [tick, hc]
    · simp [tick, hc, hfail]
  · intro n hne hsucc
    have hc : ¬(some n = c) := fun h => hne h.symm
    simp [tick, hc, hsucc]

theorem C5_state_transitions_witness :
    tick ⟨fun _ _ => true, fun _ _ => true⟩ [⟨443, 443, "TCP", "web"⟩]
      (some ⟨"1.2.3.4", "B", []⟩) [] (some ⟨"1.2.3.4", "B", []⟩) =
      (some ⟨"1.2.3.4", "B", []⟩, [], []) :=
  (C5_state_transitions ⟨fun _ _ => true, fun _ _ => true⟩
    [⟨443, 443, "TCP", "web"⟩] (some ⟨"1.2.3.4", "B", []⟩) []).2.1
    ⟨"1.2.3.4", "B", []⟩ rfl

/-- C6 counterexample: with the first node's status query raising but the
first node answering the ping, and the second node's status query
reporting master over HTTP 200, the detector returns the FIRST node (the
degraded ping fallback wins), not the second. -/
theorem C6_counterexample :
    (check_opnsense_master
        [(⟨"10.1.1.3", "A", []⟩, ⟨.raised, true⟩),
         (⟨"10.1.1.4", "B", []⟩, ⟨.ok 200 ["carp: master"], false⟩)]).1 =
      some ⟨"10.1.1.3", "A", []⟩ ∧
    (⟨"10.1.1.3", "A", []⟩ : Node) ≠ ⟨"10.1.1.4", "B", []⟩ := by
  refine ⟨?_, by decide⟩
  decide

/-- C6 (amended): if the first node's status query fails AND its
reachability probe also fails, while the second node's status query
succeeds with HTTP 200 and reports the master role, the detector returns
the second node and never applies the reachability probe to it. -/
theorem C6_detection_precedence (A B : Node) (sigA sigB : Signal)
    (ifaces : List String)
    (hA : sigA.status = .raised) (hping : sigA.ping = false)
    (hB : sigB.status = .ok 200 ifaces) (hmaster : bodyHasMaster ifaces = true)
    (hne : A ≠ B) :
    (check_opnsense_master [(A, sigA), (B, sigB)]).1 = some B ∧
    B ∉ (check_opnsense_master [(A, sigA), (B, sigB)]).2 := by
  obtain ⟨stA, pgA⟩ := sigA
  obtain ⟨stB, pgB⟩ := sigB
  simp only at hA hB hping
  subst hA hB hping
  simp only [check_opnsense_master, hmaster, Bool.false_eq_true, if_false]
  constructor
  · simp
  · simp
    exact fun h => hne h.symm

theorem C6_detection_precedence_witness :
    (check_opnsense_master
        [(⟨"10.1.1.3", "A", []⟩, ⟨.raised, false⟩),
         (⟨"10.1.1.4", "B", []⟩, ⟨.ok 200 ["carp: master"], false⟩)]).1 =
      some ⟨"10.1.1.4", "B", []⟩ ∧
    (⟨"10.1.1.4", "B", []⟩ : Node) ∉
      (check_opnsense_master
        [(⟨"10.1.1.3", "A", []⟩, ⟨.raised, false⟩),
         (⟨"10.1.1.4", "B", []⟩, ⟨.ok 200 ["carp: master"], false⟩)]).2 :=
  C6_detection_precedence ⟨"10.1.1.3", "A", []⟩ ⟨"10.1.1.4", "B", []⟩
    ⟨.raised, false⟩ ⟨.ok 200 ["carp: master"], false⟩ ["carp: master"]
    rfl rfl rfl (by decide) (by decide)

/-- The index scan collects the device's answers at successive indices
and stops exactly at the first failing index, provided the gas bound
exceeds that index. -/
theorem scanMappings_spec (device : Nat → Option Mapping) (f : Nat → Mapping) :
    ∀ (gas N idx : Nat), (∀ i, i < N → device (idx + i) = some (f (idx + i))) →
      device (idx + N) = none → N < gas →
      scanMappings device idx gas = (List.range N).map (fun i => f (idx + i)) := by
  intro gas
  induction gas with
  | zero => intro N idx _ _ h; omega
  | succ g ih =>
    intro N idx hsome hnone hlt
    cases N with
    | zero =>
      have h0 : device idx = none := by simpa using hnone
      simp [scanMappings, h0]
    | succ k =>
      have h0 : device idx = some (f idx) := by
        have := hsome 0 (Nat.succ_pos k)
        simpa using this
      have hrec := ih k (idx + 1)
        (fun i hi => by
          have := hsome (i + 1) (by omega)
          rw [show idx + 1 + i = idx + (i + 1) by omega]
          exact this)
        (by rw [show idx + 1 + k = idx + (k + 1) by omega]; exact hnone)
        (by omega)
      simp only [scanMappings, h0, hrec]
      rw [List.range_succ_eq_map, List.map_cons, List.map_map]
      congr 1
      apply List.map_congr_left
      intro a _
      simp only [Function.comp_apply]
      congr 1
      omega

/-- C7: `get_port_mappings` queries the device by strictly increasing
index from 0 and stops at the first failed or unparseable response; when
every index below `N` parses and index `N` fails, it terminates and
returns exactly the mappings of indices `0 .. N-1`, in order. -/
theorem C7_listing (device : Nat → Option Mapping) (N : Nat) (f : Nat → Mapping)
    (hsome : ∀ i, i < N → device i = some (f i)) (hnone : device N = none) :
    get_port_mappings device ⟨N, hnone⟩ = (List.range N).map f := by
  rw [get_port_mappings]
  have hle : N ≤ Nat.find (⟨N, hnone⟩ : deviceAnswers device) := by
    by_contra hlt
    push_neg at hlt
    have hspec := Nat.find_spec (⟨N, hnone⟩ : deviceAnswers device)
    rw [hsome _ hlt] at hspec
    simp at hspec
  have h := scanMappings_spec device f
    (Nat.find (⟨N, hnone⟩ : deviceAnswers device) + 1) N 0
    (fun i hi => by simpa using hsome i hi)
    (by simpa using hnone)
    (by omega)
  rw [h]
  apply List.map_congr_left
  intro a _
  rw [Nat.zero_add]

theorem C7_listing_witness :
    get_port_mappings
      (fun n => if n < 2 then some (mkMapping n "x" n "TCP" "d") else none)
      ⟨2, by decide⟩ =
    (List.range 2).map (fun i => mkMapping i "x" i "TCP" "d") :=
  C7_listing (fun n => if n < 2 then some (mkMapping n "x" n "TCP" "d") else none)
    2 (fun i => mkMapping i "x" i "TCP" "d")
    (by decide) (by decide)

/-- C8: once a master is recorded, every later tick that detects the same
node performs no NAT operation and leaves the table untouched; hence a
port whose add failed during the recorded reconciliation (all removes
succeeding, key uniqueness holding) has no mapping afterwards and keeps
having none as long as the same node stays detected. -/
theorem C8_failed_port_stays_absent (o : Oracles) (rules : List Rule)
    (n : Node) (t : List Mapping) (cfg : Rule)
    (hkeys : rules.Pairwise keyDistinct)
    (hrem : ∀ p pr, o.removeOk p pr = true)
    (hcfg : cfg ∈ rules)
    (hfail : o.addOk cfg.external cfg.protocol = false) :
    (∀ m ∈ (update_for_master o rules n t).1, ruleMatch cfg m = false) ∧
    (∀ ds : List (Option Node), (∀ d ∈ ds, d = some n) →
      runTicks o rules (some n, (update_for_master o rules n t).1) ds =
        ((some n, (update_for_master o rules n t).1), [])) := by
  constructor
  · intro m hm
    rw [update_fst, addLoop_fst,
      removeLoop_fst_allOk o hrem rules t t (fun x hx => hx)] at hm
    rcases List.mem_append.mp hm with h | h
    · exact filter_noConfigured rules t cfg hcfg m h
    · obtain ⟨c, hc, rfl⟩ := List.mem_map.mp h
      have hc2 := List.mem_filter.mp hc
      have hcr := List.mem_filter.mp hc2.1
      rw [ruleMatch_addedMapping]
      rcases Bool.eq_false_or_eq_true (keySame c cfg) with ht | hf
      · exfalso
        have hceq : c = cfg := keySame_eq_of_pairwise hkeys hcr.1 hcfg ht
        subst hceq
        rw [hfail] at hc2
        simp at hc2
      · exact hf
  · intro ds hds
    exact runTicks_const o rules n ds _ hds

theorem C8_failed_port_stays_absent_witness :
    runTicks ⟨fun _ _ => true, fun _ _ => false⟩ [⟨443, 443, "TCP", "web"⟩]
      (some ⟨"1.2.3.4", "A", [443]⟩,
        (update_for_master ⟨fun _ _ => true, fun _ _ => false⟩
          [⟨443, 443, "TCP", "web"⟩] ⟨"1.2.3.4", "A", [443]⟩
          [mkMapping 443 "9.9.9.9" 443 "TCP" "old"]).1)
      [some ⟨"1.2.3.4", "A", [443]⟩, some ⟨"1.2.3.4", "A", [443]⟩] =
    ((some ⟨"1.2.3.4", "A", [443]⟩,
        (update_for_master ⟨fun _ _ => true, fun _ _ => false⟩
          [⟨443, 443, "TCP", "web"⟩] ⟨"1.2.3.4", "A", [443]⟩
          [mkMapping 443 "9.9.9.9" 443 "TCP" "old"]).1), []) :=
  (C8_failed_port_stays_absent ⟨fun _ _ => true, fun _ _ => false⟩
    [⟨443, 443, "TCP", "web"⟩] ⟨"1.2.3.4", "A", [443]⟩
    [mkMapping 443 "9.9.9.9" 443 "TCP" "old"] ⟨443, 443, "TCP", "web"⟩
    (by decide) (fun _ _ => rfl) (by decide) rfl).2
    [some ⟨"1.2.3.4", "A", [443]⟩, some ⟨"1.2.3.4", "A", [443]⟩]
    (by intro d hd; rcases List.mem_cons.mp hd with h | h
        · exact h
        · rcases List.mem_cons.mp h with h2 | h2
          · exact h2
          · exact absurd h2 (List.not_mem_nil d))

/-- C9: a detected master with an empty assigned-port set gets zero add
operations and the reconciliation returns failure, so a tick detecting it
never records it (the recorded master is unchanged whatever it was). -/
theorem C9_empty_ports (o : Oracles) (rules : List Rule) (c : Option Node)
    (t : List Mapping) (n : Node) (hp : n.ports = []) :
    (update_for_master o rules n t).2.2 = false ∧
    (∀ op ∈ (update_for_master o rules n t).2.1, op.isAdd = false) ∧
    (tick o rules c t (some n)).1 = c := by
  have hadd := addLoop_no_ports o n hp rules (removeLoop o rules t t).1
  refine ⟨?_, ?_, ?_⟩
  · rw [update_success, hadd]
    rfl
  · intro op hop
    rw [update_ops, hadd] at hop
    rw [List.append_nil] at hop
    have hr := removeLoop_ops_isRemove o rules t t op hop
    cases op with
    | remove p pr s => rfl
    | add p pr s => simp [Op.isRemove] at hr
  · by_cases hc : some n = c
    · simp [tick, hc]
    · have hfail : (update_for_master o rules n t).2.2 = false := by
        rw [update_success, hadd]
        rfl
      simp [tick, hc, hfail]

theorem C9_empty_ports_witness :
    (update_for_master ⟨fun _ _ => true, fun _ _ => true⟩
        [⟨443, 443, "TCP", "web"⟩] ⟨"1.2.3.4", "B", []⟩
        [mkMapping 443 "9.9.9.9" 443 "TCP" "old"]).2.2 = false ∧
    (tick ⟨fun _ _ => true, fun _ _ => true⟩ [⟨443, 443, "TCP", "web"⟩]
        (some ⟨"5.6.7.8", "A", [443]⟩)
        [mkMapping 443 "9.9.9.9" 443 "TCP" "old"]
        (some ⟨"1.2.3.4", "B", []⟩)).1 = some ⟨"5.6.7.8", "A", [443]⟩ :=
  ⟨(C9_empty_ports ⟨fun _ _ => true, fun _ _ => true⟩ [⟨443, 443, "TCP", "web"⟩]
      (some ⟨"5.6.7.8", "A", [443]⟩) [mkMapping 443 "9.9.9.9" 443 "TCP" "old"]
      ⟨"1.2.3.4", "B", []⟩ rfl).1,
   (C9_empty_ports ⟨fun _ _ => true, fun _ _ => true⟩ [⟨443, 443, "TCP", "web"⟩]
      (some ⟨"5.6.7.8", "A", [443]⟩) [mkMapping 443 "9.9.9.9" 443 "TCP" "old"]
      ⟨"1.2.3.4", "B", []⟩ rfl).2.2⟩

/-- C10: a node whose status query comes back with a non-200 HTTP code
(without raising) is neither declared master nor ping-probed; the ping
fallback is applied to a node only when its status query raised. -/
theorem C10_fallback_only_on_raise (L : List (Node × Signal)) (n : Node) :
    ((∀ sig : Signal, (n, sig) ∈ L →
        ∃ code ifaces, sig.status = .ok code ifaces ∧ code ≠ 200) →
      ((check_opnsense_master L).1 ≠ some n ∧
        n ∉ (check_opnsense_master L).2)) ∧
    (∀ x ∈ (check_opnsense_master L).2,
      ∃ sig, (x, sig) ∈ L ∧ sig.status = .raised) := by
  induction L with
  | nil =>
    constructor
    · intro _
      constructor
      · simp [check_opnsense_master]
      · simp [check_opnsense_master]
    · intro x hx
      simp [check_opnsense_master] at hx
  | cons p rest ih =>
    obtain ⟨m, sig⟩ := p
    constructor
    · intro hall
      have hrest : (∀ s : Signal, (n, s) ∈ rest →
          ∃ code ifaces, s.status = .ok code ifaces ∧ code ≠ 200) :=
        fun s hs => hall s (List.mem_cons_of_mem _ hs)
      match hst : sig.status with
      | .ok code ifaces =>
        by_cases hdecl : (code == 200 && bodyHasMaster ifaces) = true
        · have hmn : m ≠ n := by
            intro hmn
            subst hmn
            obtain ⟨code2, if2, hok, hne⟩ := hall sig (List.mem_cons_self _ _)
            rw [hst] at hok
            obtain ⟨he1, -⟩ := StatusResult.ok.inj hok
            rw [Bool.and_eq_true] at hdecl
            have hc200 : code = 200 := by simpa using hdecl.1
            exact hne (he1 ▸ hc200)
          simp only [check_opnsense_master, hst, hdecl, if_true]
          constructor
          · intro hsome
            exact hmn (Option.some.inj hsome)
          · simp
        · simp only [check_opnsense_master, hst, hdecl, if_false]
          exact (ih.1) hrest
      | .raised =>
        have hmn : m ≠ n := by
          intro hmn
          subst hmn
          obtain ⟨code2, if2, hok, -⟩ := hall sig (List.mem_cons_self _ _)
          rw [hst] at hok
          exact StatusResult.noConfusion hok
        by_cases hping : sig.ping = true
        · simp only [check_opnsense_master, hst, hping, if_true]
          constructor
          · intro hsome
            exact hmn (Option.some.inj hsome)
          · simp
            exact fun h => hmn h.symm
        · rw [Bool.not_eq_true] at hping
          simp only [check_opnsense_master, hst, hping, Bool.false_eq_true, if_false]
          constructor
          · exact ((ih.1) hrest).1
          · intro hmem
            rcases List.mem_cons.mp hmem with h | h
            · exact hmn h.symm
            · exact ((ih.1) hrest).2 h
    · intro x hx
      match hst : sig.status with
      | .ok code ifaces =>
        by_cases hdecl : (code == 200 && bodyHasMaster ifaces) = true
        · simp only [check_opnsense_master, hst, hdecl, if_true] at hx
          simp at hx
        · simp only [check_opnsense_master, hst, hdecl, if_false] at hx
          obtain ⟨s, hs, hraised⟩ := ih.2 x hx
          exact ⟨s, List.mem_cons_of_mem _ hs, hraised⟩
      | .raised =>
        by_cases hping : sig.ping = true
        · simp only [check_opnsense_master, hst, hping, if_true] at hx
          rcases List.mem_singleton.mp hx with h
          subst h
          exact ⟨sig, List.mem_cons_self _ _, hst⟩
        · rw [Bool.not_eq_true] at hping
          simp only [check_opnsense_master, hst, hping, Bool.false_eq_true,
            if_false] at hx
          rcases List.mem_cons.mp hx with h | h
          · subst h
            exact ⟨sig, List.mem_cons_self _ _, hst⟩
          · obtain ⟨s, hs, hraised⟩ := ih.2 x h
            exact ⟨s, List.mem_cons_of_mem _ hs, hraised⟩

theorem C10_fallback_only_on_raise_witness :
    (check_opnsense_master
        [(⟨"10.1.1.3", "A", []⟩, ⟨.ok 500 ["carp: master"], true⟩)]).1 ≠
      some ⟨"10.1.1.3", "A", []⟩ ∧
    (⟨"10.1.1.3", "A", []⟩ : Node) ∉
      (check_opnsense_master
        [(⟨"10.1.1.3", "A", []⟩, ⟨.ok 500 ["carp: master"], true⟩)]).2 :=
  (C10_fallback_only_on_raise
      [(⟨"10.1.1.3", "A", []⟩, ⟨.ok 500 ["carp: master"], true⟩)]
      ⟨"10.1.1.3", "A", []⟩).1
    (by
      intro sig hsig
      rcases List.mem_singleton.mp hsig with h
      have hsigeq : sig = ⟨.ok 500 ["carp: master"], true⟩ := by
        have := congrArg Prod.snd h
        simpa using this
      subst hsigeq
      exact ⟨500, ["carp: master"], rfl, by decide⟩)
